import Mathlib

/-!
Shallow embedding of `counterfit/core/targets.py`: the query execution and
caching layer (`Target._key`, `Target._submit_with_cache`, `Target._submit`),
the attack lifecycle controller (`Target.init_run_attack`, `Target.run_attack`,
`ArtTarget._run_art_attack`), the success evaluator
(`Target.check_attack_success`), label derivation (`Target.outputs_to_labels`)
and attack management (`Target.get_attacks`).

Modelling conventions:
- A `Sample` carries its serialized byte content (`bytes`, what
  `np.array(x).data.tobytes()` yields) together with an in-memory
  representation tag `rep` that the serialization ignores.
- The model (`self.__call__`) is an explicit function parameter
  `Model := List Sample → List RawOutput`.
- The cache (a Python dict) is an association list with most-recent-first
  precedence: `self.cache[key] = v` becomes a prepend, `key in self.cache` /
  `self.cache[key]` become `List.lookup`.
- Functions that issue model calls additionally return the list of batches
  passed to the model, so that the number and content of model calls is part
  of the observable result.
- Exceptions are `Except`: a raised error propagates with the mutated target
  state and the untouched session attached.
-/

/-- Serialized byte content, the result of `np.array(x).data.tobytes()`. -/
abbrev Bytes := List Nat

/-- Raw model output for one input (e.g. a probability row), stored verbatim. -/
abbrev RawOutput := List Int

/-- A discrete label from the target's label vocabulary. -/
abbrev Label := Nat

/-- An input sample: `bytes` is its exact serialized bit pattern; `rep` is an
in-memory representation tag that serialization does not see. -/
structure Sample where
  rep : Nat
  bytes : List Nat
deriving DecidableEq, Inhabited

/-- The underlying model, `self.__call__`: one raw output per input. -/
abbrev Model := List Sample → List RawOutput

/-- The mutable state of a `Target` object that the core touches: the cache,
the two counters, and the `model_output_classes` label vocabulary. -/
structure Target where
  cache : List (Bytes × RawOutput) := []
  num_evaluations : Nat := 0
  actual_evaluations : Nat := 0
  model_output_classes : List Label := []
deriving DecidableEq, Inhabited

/-- Embedding of `Target._key`, i.e. `np.array(array).data.tobytes()`: the fingerprint key is
the sample's exact serialized byte content, independent of `rep`. -/
def Target.key (a : Sample) : Bytes :=
  a.bytes

/-- The first loop of `Target._submit_with_cache`: walk `batch_input` with
index `i`, producing `(output, submit_batch, index)` — cached outputs (or
`none` placeholders) in position, the cache misses in original order, and
their original positions. -/
def Target.scanBatch (cache : List (Bytes × RawOutput)) :
    List Sample → Nat → List (Option RawOutput) × List Sample × List Nat
  | [], _ => ([], [], [])
  | a :: rest, i =>
    let r := Target.scanBatch cache rest (i + 1)
    match List.lookup (Target.key a) cache with
    | some v => (some v :: r.1, r.2.1, r.2.2)
    | none => (none :: r.1, a :: r.2.1, i :: r.2.2)

/-- The merge loop of `Target._submit_with_cache`:
`for i, inp, outp in zip(index, submit_batch, results):` write each result
into the cache (`self.cache[key] = outp`) and splice it into `output[i]`.
`zip` truncates at the shortest list. -/
def Target.mergeResults :
    List (Bytes × RawOutput) → List (Option RawOutput) →
    List Nat → List Sample → List RawOutput →
    List (Bytes × RawOutput) × List (Option RawOutput)
  | cache, out, i :: idx, inp :: inps, outp :: outps =>
    Target.mergeResults ((Target.key inp, outp) :: cache) (out.set i (some outp))
      idx inps outps
  | cache, out, _, _, _ => (cache, out)

/-- Embedding of `Target._submit_with_cache`: submit to model, with caching. Returns the
output list, the updated target state, and the list of batches actually passed
to the model (`[]` or a singleton). -/
def Target.submit_with_cache (model : Model) (t : Target) (batch_input : List Sample) :
    List (Option RawOutput) × Target × List (List Sample) :=
  let t1 := { t with num_evaluations := t.num_evaluations + batch_input.length }
  let s := Target.scanBatch t1.cache batch_input 0
  if 0 < s.2.1.length then
    let t2 := { t1 with actual_evaluations := t1.actual_evaluations + s.2.1.length }
    let results := model s.2.1
    let m := Target.mergeResults t2.cache s.1 s.2.2 s.2.1 results
    (m.2, { t2 with cache := m.1 }, [s.2.1])
  else
    (s.1, t1, [])

/-- Embedding of `Target._submit`: submit to model, without caching; both counters advance
by the batch length and the whole batch goes to the model in one call. -/
def Target.submit (model : Model) (t : Target) (batch_input : List Sample) :
    List RawOutput × Target × List (List Sample) :=
  (model batch_input,
   { t with
      num_evaluations := t.num_evaluations + batch_input.length,
      actual_evaluations := t.actual_evaluations + batch_input.length },
   [batch_input])

/-- Helper for `np.argmax` over one output row: index of the first occurrence of the
maximum (auxiliary recursion carrying best value, best index, next index). -/
def argmaxAux : List Int → Int → Nat → Nat → Nat
  | [], _, bi, _ => bi
  | x :: rest, best, bi, i =>
    if best < x then argmaxAux rest x i (i + 1) else argmaxAux rest best bi (i + 1)

/-- Embedding of `np.argmax` of a row (0 on an empty row). -/
def argmax : List Int → Nat
  | [] => 0
  | x :: rest => argmaxAux rest x 0 1

/-- Embedding of `Target.outputs_to_labels`: default multiclass label selector via argmax,
mapped through `model_output_classes`. -/
def Target.outputs_to_labels (t : Target) (output : List RawOutput) : List Label :=
  output.map (fun row => t.model_output_classes.getD (argmax row) 0)

/-- The `Query` named tuple: `(input, output, label)` for one batch. -/
structure Query where
  input : List Sample
  output : List RawOutput
  label : List Label
deriving DecidableEq, Inhabited

/-- The `results` dict of an attack: `initial`/`final` queries and the
statistics committed by `run_attack` (elapsed wall-clock time is not
modelled). A `none` field is an absent dict key. -/
structure AttackResults where
  initial : Option Query := none
  final : Option Query := none
  queries : Option Int := none
  cache_hits : Option Int := none
deriving DecidableEq, Inhabited

/-- The attack `parameters` configuration map; `targeted := none` means the
key is absent (`parameters.get("targeted", False)` then yields `False`). -/
structure AttackParameters where
  targeted : Option Bool := none
deriving DecidableEq, Inhabited

/-- The mutable state of one attack (`self.active_attack`): samples under
attack, parameters, target class, status string, and accumulated results. -/
structure Session where
  samples : List Sample := []
  parameters : AttackParameters := {}
  target_class : Nat := 0
  status : String := "pending"
  results : AttackResults := {}
deriving DecidableEq, Inhabited

/-- Embedding of `Target._get_query`: submit a batch uncached, derive labels, and package
input/output/label as a `Query`. -/
def Target.get_query (model : Model) (t : Target) (batch : List Sample) :
    Query × Target :=
  let r := Target.submit model t batch
  ({ input := batch, output := r.1, label := Target.outputs_to_labels t r.1 }, r.2.1)

/-- Embedding of `Target.init_run_attack`: run the initial probe and replace the session's
results dict with `{'initial': ...}`. -/
def Target.init_run_attack (model : Model) (t : Target) (sess : Session) :
    Target × Session :=
  let r := Target.get_query model t sess.samples
  (r.2, { sess with results := { initial := some r.1 } })

/-- One call an attack runner makes back into the query executor: through the
caching path (`_submit_with_cache`) or the uncached path (`_submit`). -/
inductive RunnerCall where
  | cached (b : List Sample)
  | uncached (b : List Sample)
deriving DecidableEq

/-- Apply one runner call to the target state. -/
def Target.applyCall (model : Model) (t : Target) : RunnerCall → Target
  | .cached b => (Target.submit_with_cache model t b).2.1
  | .uncached b => (Target.submit model t b).2.1

/-- Apply a sequence of runner calls to the target state. -/
def Target.runCalls (model : Model) (t : Target) (calls : List RunnerCall) : Target :=
  calls.foldl (Target.applyCall model) t

/-- An attack runner, modelled as the trace it produces: the query-executor
calls it issues, then either the perturbed samples it returns or the error it
raises. -/
structure RunnerScript where
  calls : List RunnerCall
  outcome : Except String (List Sample)

/-- Embedding of `ArtTarget._run_art_attack`: the runner issues its query calls; on normal
completion it sets `status = completed` and returns the adversarial examples;
if it raises, the status assignment (its last statement) is never reached. -/
def Target.run_art_attack (model : Model) (t : Target) (sess : Session)
    (r : RunnerScript) : Target × Session × Except String (List Sample) :=
  let t1 := Target.runCalls model t r.calls
  match r.outcome with
  | .ok advExamples => (t1, { sess with status := "completed" }, .ok advExamples)
  | .error e => (t1, sess, .error e)

/-- Embedding of `Target.run_attack`: snapshot both counters, run the attack runner, run
the final probe, and commit `final`/`queries`/`cache_hits` to the session's
results. A runner exception propagates uncaught, carrying the mutated target
and the untouched session; nothing is committed. (The image/PE saving tail of
the Python function is an excluded collaborator.) -/
def Target.run_attack (model : Model) (t : Target) (sess : Session)
    (r : RunnerScript) : Except (String × Target × Session) (Target × Session) :=
  let queries0 := t.num_evaluations
  let actual_queries0 := t.actual_evaluations
  let a := Target.run_art_attack model t sess r
  match a.2.2 with
  | .error e => .error (e, a.1, a.2.1)
  | .ok resulting_samples =>
    let g := Target.get_query model a.1 resulting_samples
    let queries : Int := (g.2.num_evaluations : Int) - (queries0 : Int)
    let actual_queries : Int := (g.2.actual_evaluations : Int) - (actual_queries0 : Int)
    .ok (g.2,
      { a.2.1 with
          results :=
            { a.2.1.results with
                final := some g.1,
                queries := some queries,
                cache_hits := some (queries - actual_queries) } })

/-- Embedding of `Target.check_attack_success`: compare the recorded final labels against
the target class (targeted) or the recorded initial labels (untargeted),
elementwise as numpy does. -/
def Target.check_attack_success (t : Target) (sess : Session) : List Bool :=
  let new_labels := (sess.results.final.getD default).label
  let old_labels := (sess.results.initial.getD default).label
  if (sess.parameters.targeted).getD false then
    new_labels.map (fun l => l == t.model_output_classes.getD sess.target_class 0)
  else
    List.zipWith (fun n o => n != o) new_labels old_labels

/-- Result of `Target.get_attacks`: either a dict of attacks or the `False`
returned for an unrecognized status. -/
inductive GetAttacksResult where
  | attacks (d : List (String × Session))
  | notUnderstood
deriving DecidableEq

/-- Modelled from the spec: membership in `enums.AttackStatus`
(`counterfit/core/enums.py` is not under `src/`); the spec gives the status
enum `pending → running → completed`. -/
def recognizedStatus (s : String) : Bool :=
  s == "pending" || s == "running" || s == "completed"

/-- Embedding of `Target.get_attacks`: with a falsy status (absent or empty string) return
all attacks; with an unrecognized status return `False` ("not understood");
otherwise filter the attacks by status. -/
def Target.get_attacks (attacks : List (String × Session)) (status : Option String) :
    GetAttacksResult :=
  match status with
  | none => .attacks attacks
  | some s =>
    if s = "" then .attacks attacks
    else if recognizedStatus s then
      .attacks (attacks.filter (fun kv => kv.2.status == s))
    else .notUnderstood

/-- The cache-miss predicate of a batch element with respect to a cache:
its fingerprint key is absent. -/
def Target.missPred (cache : List (Bytes × RawOutput)) (a : Sample) : Bool :=
  (List.lookup (Target.key a) cache).isNone

/-- The rank of position `j` among the cache misses of `batch`: how many
misses strictly precede it. -/
def Target.missRank (cache : List (Bytes × RawOutput)) (batch : List Sample) (j : Nat) : Nat :=
  ((batch.take j).filter (Target.missPred cache)).length

/-! ### Helper lemmas about the scan loop -/

theorem scanBatch_fst (cache : List (Bytes × RawOutput)) (batch : List Sample) (i : Nat) :
    (Target.scanBatch cache batch i).1 =
      batch.map (fun a => List.lookup (Target.key a) cache) := by
  induction batch generalizing i with
  | nil => simp [Target.scanBatch]
  | cons a rest ih =>
    cases h : List.lookup (Target.key a) cache <;>
      simp [Target.scanBatch, h, ih]

theorem scanBatch_sb (cache : List (Bytes × RawOutput)) (batch : List Sample) (i : Nat) :
    (Target.scanBatch cache batch i).2.1 = batch.filter (Target.missPred cache) := by
  induction batch generalizing i with
  | nil => simp [Target.scanBatch]
  | cons a rest ih =>
    cases h : List.lookup (Target.key a) cache <;>
      simp [Target.scanBatch, h, ih, Target.missPred, List.filter]

theorem scanBatch_idx_len (cache : List (Bytes × RawOutput)) (batch : List Sample) (i : Nat) :
    (Target.scanBatch cache batch i).2.2.length = (Target.scanBatch cache batch i).2.1.length := by
  induction batch generalizing i with
  | nil => simp [Target.scanBatch]
  | cons a rest ih =>
    cases h : List.lookup (Target.key a) cache <;>
      simp [Target.scanBatch, h, ih]

theorem scanBatch_idx_mem (cache : List (Bytes × RawOutput)) (batch : List Sample) (i : Nat) :
    ∀ x ∈ (Target.scanBatch cache batch i).2.2,
      i ≤ x ∧ x - i < batch.length ∧
        List.lookup (Target.key (batch.getD (x - i) default)) cache = none := by
  induction batch generalizing i with
  | nil => simp [Target.scanBatch]
  | cons a rest ih =>
    intro x hx
    cases h : List.lookup (Target.key a) cache with
    | some v =>
      simp only [Target.scanBatch, h] at hx
      obtain ⟨h1, h2, h3⟩ := ih (i + 1) x hx
      refine ⟨by omega, by simp; omega, ?_⟩
      have hxi : x - i = (x - (i + 1)) + 1 := by omega
      rw [hxi]
      simpa using h3
    | none =>
      simp only [Target.scanBatch, h, List.mem_cons] at hx
      rcases hx with rfl | hx
      · simp [h]
      · obtain ⟨h1, h2, h3⟩ := ih (i + 1) x hx
        refine ⟨by omega, by simp; omega, ?_⟩
        have hxi : x - i = (x - (i + 1)) + 1 := by omega
        rw [hxi]
        simpa using h3

theorem scanBatch_idx_pairwise (cache : List (Bytes × RawOutput)) (batch : List Sample) (i : Nat) :
    List.Pairwise (· < ·) (Target.scanBatch cache batch i).2.2 := by
  induction batch generalizing i with
  | nil => simp [Target.scanBatch]
  | cons a rest ih =>
    cases h : List.lookup (Target.key a) cache with
    | some v => simpa [Target.scanBatch, h] using ih (i + 1)
    | none =>
      simp only [Target.scanBatch, h]
      refine List.Pairwise.cons ?_ (ih (i + 1))
      intro x hx
      have := (scanBatch_idx_mem cache rest (i + 1) x hx).1
      omega

/-! ### Helper lemmas about the merge loop -/

theorem mergeResults_cache (idx : List Nat) (sb : List Sample) (results : List RawOutput)
    (cache : List (Bytes × RawOutput)) (out : List (Option RawOutput))
    (hi : sb.length ≤ idx.length) :
    (Target.mergeResults cache out idx sb results).1 =
      ((sb.zip results).map (fun pr => (Target.key pr.1, pr.2))).reverse ++ cache := by
  induction idx generalizing sb results cache out with
  | nil =>
    have : sb = [] := List.eq_nil_of_length_eq_zero (by simpa using hi)
    subst this
    simp [Target.mergeResults]
  | cons i idx' ih =>
    cases sb with
    | nil => simp [Target.mergeResults]
    | cons s sb' =>
      cases results with
      | nil => simp [Target.mergeResults]
      | cons r rs =>
        simp only [Target.mergeResults]
        rw [ih sb' rs _ _ (by simpa using hi)]
        simp

theorem mergeResults_len (idx : List Nat) (sb : List Sample) (results : List RawOutput)
    (cache : List (Bytes × RawOutput)) (out : List (Option RawOutput)) :
    (Target.mergeResults cache out idx sb results).2.length = out.length := by
  induction idx generalizing sb results cache out with
  | nil => simp [Target.mergeResults]
  | cons i idx' ih =>
    cases sb with
    | nil => simp [Target.mergeResults]
    | cons s sb' =>
      cases results with
      | nil => simp [Target.mergeResults]
      | cons r rs =>
        simp only [Target.mergeResults]
        rw [ih sb' rs]
        simp

theorem mergeResults_not_mem (idx : List Nat) (sb : List Sample) (results : List RawOutput)
    (cache : List (Bytes × RawOutput)) (out : List (Option RawOutput))
    (j : Nat) (hj : j ∉ idx) :
    (Target.mergeResults cache out idx sb results).2[j]? = out[j]? := by
  induction idx generalizing sb results cache out with
  | nil => simp [Target.mergeResults]
  | cons i idx' ih =>
    cases sb with
    | nil => simp [Target.mergeResults]
    | cons s sb' =>
      cases results with
      | nil => simp [Target.mergeResults]
      | cons r rs =>
        simp only [Target.mergeResults]
        rw [ih sb' rs _ _ (by simp at hj; exact hj.2)]
        exact List.getElem?_set_ne (by simp at hj; exact fun h => hj.1 h.symm)

theorem mergeResults_getD (idx : List Nat) (sb : List Sample) (results : List RawOutput)
    (cache : List (Bytes × RawOutput)) (out : List (Option RawOutput))
    (p : Nat) (hp1 : p < idx.length) (hp2 : p < sb.length) (hp3 : p < results.length)
    (hpw : List.Pairwise (· < ·) idx) (hmem : ∀ x ∈ idx, x < out.length) :
    (Target.mergeResults cache out idx sb results).2[idx.getD p 0]? =
      some (some (results.getD p default)) := by
  induction idx generalizing sb results cache out p with
  | nil => simp at hp1
  | cons i idx' ih =>
    cases sb with
    | nil => simp at hp2
    | cons s sb' =>
      cases results with
      | nil => simp at hp3
      | cons r rs =>
        simp only [Target.mergeResults]
        cases p with
        | zero =>
          have hni : i ∉ idx' := fun h => absurd (List.rel_of_pairwise_cons hpw h) (lt_irrefl i)
          have hi : i < out.length := hmem i (by simp)
          simp only [List.getD_cons_zero]
          rw [mergeResults_not_mem idx' sb' rs _ _ i hni, List.getElem?_set_self hi]
        | succ p' =>
          simp only [List.getD_cons_succ]
          exact ih sb' rs _ _ p' (by simpa using hp1) (by simpa using hp2)
            (by simpa using hp3) hpw.of_cons
            (fun x hx => by rw [List.length_set]; exact hmem x (List.mem_cons_of_mem i hx))

theorem scanBatch_rank (cache : List (Bytes × RawOutput)) (batch : List Sample) (i : Nat) :
    ∀ j, j < batch.length → Target.missPred cache (batch.getD j default) = true →
      Target.missRank cache batch j < (Target.scanBatch cache batch i).2.1.length ∧
      (Target.scanBatch cache batch i).2.2.getD (Target.missRank cache batch j) 0 = i + j ∧
      (Target.scanBatch cache batch i).2.1.getD (Target.missRank cache batch j) default =
        batch.getD j default := by
  induction batch generalizing i with
  | nil => intro j hj; simp at hj
  | cons a rest ih =>
    intro j hj hm
    cases j with
    | zero =>
      simp only [List.getD_cons_zero] at hm
      have h : List.lookup (Target.key a) cache = none := by
        simpa [Target.missPred, Option.isNone_iff_eq_none] using hm
      simp [Target.scanBatch, h, Target.missRank]
    | succ j' =>
      simp only [List.getD_cons_succ] at hm
      have hj' : j' < rest.length := by simpa using hj
      have this' := ih (i + 1) j' hj' hm
      cases hma : Target.missPred cache a with
      | false =>
        have h : ∃ v, List.lookup (Target.key a) cache = some v := by
          cases hl : List.lookup (Target.key a) cache with
          | none => simp [Target.missPred, hl] at hma
          | some v => exact ⟨v, rfl⟩
        obtain ⟨v, hv⟩ := h
        have hr : Target.missRank cache (a :: rest) (j' + 1) = Target.missRank cache rest j' := by
          simp [Target.missRank, List.take_succ_cons, List.filter_cons, hma]
        simp only [Target.scanBatch, hv]
        rw [hr]
        exact ⟨this'.1, by rw [this'.2.1]; omega, by simpa using this'.2.2⟩
      | true =>
        have hv : List.lookup (Target.key a) cache = none := by
          simpa [Target.missPred, Option.isNone_iff_eq_none] using hma
        have hr : Target.missRank cache (a :: rest) (j' + 1) = Target.missRank cache rest j' + 1 := by
          simp [Target.missRank, List.take_succ_cons, List.filter_cons, hma]
        simp only [Target.scanBatch, hv]
        rw [hr]
        refine ⟨by simpa using Nat.succ_lt_succ this'.1, ?_, ?_⟩
        · rw [List.getD_cons_succ, this'.2.1]
          omega
        · rw [List.getD_cons_succ, List.getD_cons_succ]
          exact this'.2.2

/-! ### Helper lemmas about cache lookup after the merge loop -/

theorem lookup_append_ptwise (E cache : List (Bytes × RawOutput)) (f : Bytes → RawOutput)
    (k : Bytes) (h : ∀ kv ∈ E, kv.2 = f kv.1) :
    List.lookup k (E ++ cache) =
      if k ∈ E.map Prod.fst then some (f k) else List.lookup k cache := by
  induction E with
  | nil => simp
  | cons kv rest ih =>
    obtain ⟨k', v⟩ := kv
    have hv : v = f k' := h (k', v) (by simp)
    by_cases hk : k = k'
    · subst hk
      simp [List.lookup, hv]
    · have hbeq : (k == k') = false := beq_false_of_ne hk
      simp only [List.cons_append, List.lookup, hbeq]
      rw [show rest.append cache = rest ++ cache from rfl,
        ih (fun kv hkv => h kv (List.mem_cons_of_mem _ hkv))]
      by_cases hm : k ∈ List.map Prod.fst rest <;> simp [hm, List.mem_cons, hk]

theorem zip_map_self_mem (g : Sample → RawOutput) (sb : List Sample) :
    ∀ pr ∈ sb.zip (sb.map g), pr.2 = g pr.1 := by
  induction sb with
  | nil => simp
  | cons a rest ih =>
    intro pr hpr
    simp only [List.map_cons, List.zip_cons_cons, List.mem_cons] at hpr
    rcases hpr with rfl | hpr
    · rfl
    · exact ih pr hpr

theorem lookup_append_not_mem (E cache : List (Bytes × RawOutput)) (k : Bytes)
    (h : k ∉ E.map Prod.fst) : List.lookup k (E ++ cache) = List.lookup k cache := by
  induction E with
  | nil => simp
  | cons kv rest ih =>
    obtain ⟨k', v⟩ := kv
    simp only [List.map_cons, List.mem_cons, not_or] at h
    have hbeq : (k == k') = false := beq_false_of_ne h.1
    simp only [List.cons_append, List.lookup, hbeq]
    exact ih h.2

/-! ### Closed-form facts about `Target._submit_with_cache` -/

theorem submit_with_cache_eq (model : Model) (t : Target) (b : List Sample) :
    Target.submit_with_cache model t b =
      if 0 < (Target.scanBatch t.cache b 0).2.1.length then
        ((Target.mergeResults t.cache (Target.scanBatch t.cache b 0).1
            (Target.scanBatch t.cache b 0).2.2 (Target.scanBatch t.cache b 0).2.1
            (model (Target.scanBatch t.cache b 0).2.1)).2,
         { cache := (Target.mergeResults t.cache (Target.scanBatch t.cache b 0).1
              (Target.scanBatch t.cache b 0).2.2 (Target.scanBatch t.cache b 0).2.1
              (model (Target.scanBatch t.cache b 0).2.1)).1,
           num_evaluations := t.num_evaluations + b.length,
           actual_evaluations :=
             t.actual_evaluations + (Target.scanBatch t.cache b 0).2.1.length,
           model_output_classes := t.model_output_classes },
         [(Target.scanBatch t.cache b 0).2.1])
      else
        ((Target.scanBatch t.cache b 0).1,
         { t with num_evaluations := t.num_evaluations + b.length }, []) :=
  rfl

theorem submit_with_cache_num (model : Model) (t : Target) (b : List Sample) :
    (Target.submit_with_cache model t b).2.1.num_evaluations =
      t.num_evaluations + b.length := by
  rw [submit_with_cache_eq]
  split <;> rfl

theorem submit_with_cache_classes (model : Model) (t : Target) (b : List Sample) :
    (Target.submit_with_cache model t b).2.1.model_output_classes =
      t.model_output_classes := by
  rw [submit_with_cache_eq]
  split <;> rfl

theorem submit_with_cache_actual (model : Model) (t : Target) (b : List Sample) :
    (Target.submit_with_cache model t b).2.1.actual_evaluations =
      t.actual_evaluations + (b.filter (Target.missPred t.cache)).length := by
  rw [submit_with_cache_eq]
  split
  next h =>
    show t.actual_evaluations + (Target.scanBatch t.cache b 0).2.1.length = _
    rw [scanBatch_sb]
  next h =>
    show t.actual_evaluations = _
    rw [scanBatch_sb] at h
    omega

theorem submit_with_cache_calls (model : Model) (t : Target) (b : List Sample) :
    (Target.submit_with_cache model t b).2.2 =
      if (b.filter (Target.missPred t.cache)).length = 0 then []
      else [b.filter (Target.missPred t.cache)] := by
  rw [submit_with_cache_eq]
  split
  next h =>
    rw [scanBatch_sb] at h
    rw [scanBatch_sb]
    simp [Nat.ne_of_gt h]
  next h =>
    rw [scanBatch_sb] at h
    simp [show (b.filter (Target.missPred t.cache)).length = 0 by omega]

theorem submit_with_cache_out_len (model : Model) (t : Target) (b : List Sample) :
    (Target.submit_with_cache model t b).1.length = b.length := by
  rw [submit_with_cache_eq]
  split
  · show (Target.mergeResults _ _ _ _ _).2.length = _
    rw [mergeResults_len, scanBatch_fst, List.length_map]
  · show (Target.scanBatch t.cache b 0).1.length = _
    rw [scanBatch_fst, List.length_map]

theorem submit_with_cache_out_hit (model : Model) (t : Target) (b : List Sample)
    (j : Nat) (hj : j < b.length) (v : RawOutput)
    (hv : List.lookup (Target.key (b.getD j default)) t.cache = some v) :
    (Target.submit_with_cache model t b).1[j]? = some (some v) := by
  have hb : b[j] = b.getD j default := (List.getD_eq_getElem b default hj).symm
  have hscan : (Target.scanBatch t.cache b 0).1[j]? = some (some v) := by
    rw [scanBatch_fst, List.getElem?_map, List.getElem?_eq_getElem hj,
      Option.map_some', hb, hv]
  have hni : j ∉ (Target.scanBatch t.cache b 0).2.2 := by
    intro hmem
    have := (scanBatch_idx_mem t.cache b 0 j hmem).2.2
    simp only [Nat.sub_zero] at this
    rw [this] at hv
    exact Option.noConfusion hv
  rw [submit_with_cache_eq]
  split
  · show (Target.mergeResults _ _ _ _ _).2[j]? = _
    rw [mergeResults_not_mem _ _ _ _ _ j hni]
    exact hscan
  · exact hscan

theorem submit_with_cache_out_miss (model : Model) (t : Target) (b : List Sample)
    (j : Nat) (hj : j < b.length)
    (hm : Target.missPred t.cache (b.getD j default) = true)
    (hlen : (model (b.filter (Target.missPred t.cache))).length =
      (b.filter (Target.missPred t.cache)).length) :
    (Target.submit_with_cache model t b).1[j]? =
      some (some ((model (b.filter (Target.missPred t.cache))).getD
        (Target.missRank t.cache b j) default)) := by
  have hmem : b.getD j default ∈ b.filter (Target.missPred t.cache) :=
    List.mem_filter.mpr ⟨by rw [List.getD_eq_getElem b default hj]; exact List.getElem_mem hj, hm⟩
  have hpos : 0 < (b.filter (Target.missPred t.cache)).length :=
    List.length_pos_of_mem hmem
  have hrank := scanBatch_rank t.cache b 0 j hj hm
  rw [submit_with_cache_eq]
  split
  next h =>
    show (Target.mergeResults t.cache (Target.scanBatch t.cache b 0).1
      (Target.scanBatch t.cache b 0).2.2 (Target.scanBatch t.cache b 0).2.1
      (model (Target.scanBatch t.cache b 0).2.1)).2[j]? = _
    have hidx : (Target.scanBatch t.cache b 0).2.2.getD (Target.missRank t.cache b j) 0 = j := by
      rw [hrank.2.1]
      omega
    have hmerge := mergeResults_getD (Target.scanBatch t.cache b 0).2.2
      (Target.scanBatch t.cache b 0).2.1 (model (Target.scanBatch t.cache b 0).2.1)
      t.cache (Target.scanBatch t.cache b 0).1 (Target.missRank t.cache b j)
      (by rw [scanBatch_idx_len]; exact hrank.1) hrank.1
      (by rw [scanBatch_sb, hlen, ← scanBatch_sb t.cache b 0]; exact hrank.1)
      (scanBatch_idx_pairwise t.cache b 0)
      (fun x hx => by
        rw [scanBatch_fst, List.length_map]
        have := (scanBatch_idx_mem t.cache b 0 x hx).2.1
        omega)
    rw [hidx] at hmerge
    rw [scanBatch_sb] at hmerge
    rw [scanBatch_sb]
    exact hmerge
  next h =>
    rw [scanBatch_sb] at h
    omega

theorem submit_with_cache_cache_of_hit (model : Model) (t : Target) (b : List Sample)
    (k : Bytes) (v : RawOutput) (hv : List.lookup k t.cache = some v) :
    List.lookup k (Target.submit_with_cache model t b).2.1.cache = some v := by
  rw [submit_with_cache_eq]
  split
  next h =>
    show List.lookup k (Target.mergeResults _ _ _ _ _).1 = some v
    rw [mergeResults_cache _ _ _ _ _ (le_of_eq (scanBatch_idx_len t.cache b 0).symm)]
    rw [lookup_append_not_mem]
    · exact hv
    · intro hmem
      rw [List.map_reverse, List.mem_reverse, List.map_map] at hmem
      obtain ⟨pr, hpr, hkey⟩ := List.mem_map.mp hmem
      have hsb : pr.1 ∈ (Target.scanBatch t.cache b 0).2.1 := (List.of_mem_zip hpr).1
      rw [scanBatch_sb] at hsb
      have hnone := (List.mem_filter.mp hsb).2
      simp only [Target.missPred, Option.isNone_iff_eq_none] at hnone
      have : Target.key pr.1 = k := hkey
      rw [this] at hnone
      rw [hnone] at hv
      exact Option.noConfusion hv
  next h =>
    exact hv

theorem submit_with_cache_cache_ptwise (model : Model) (t : Target) (b : List Sample)
    (f : Bytes → RawOutput)
    (hmodel : model (b.filter (Target.missPred t.cache)) =
      (b.filter (Target.missPred t.cache)).map (fun a => f (Target.key a)))
    (k : Bytes) :
    List.lookup k (Target.submit_with_cache model t b).2.1.cache =
      if k ∈ (b.filter (Target.missPred t.cache)).map Target.key then some (f k)
      else List.lookup k t.cache := by
  rw [submit_with_cache_eq]
  split
  next h =>
    show List.lookup k (Target.mergeResults _ _ _ _ _).1 = _
    rw [mergeResults_cache _ _ _ _ _ (le_of_eq (scanBatch_idx_len t.cache b 0).symm)]
    rw [scanBatch_sb, hmodel]
    rw [lookup_append_ptwise _ _ f]
    · have hfst : (((b.filter (Target.missPred t.cache)).zip
          ((b.filter (Target.missPred t.cache)).map (fun a => f (Target.key a)))).map
            (fun pr => (Target.key pr.1, pr.2))).reverse.map Prod.fst =
          ((b.filter (Target.missPred t.cache)).map Target.key).reverse := by
        rw [List.map_reverse, List.map_map]
        congr 1
        have : ((b.filter (Target.missPred t.cache)).zip
            ((b.filter (Target.missPred t.cache)).map (fun a => f (Target.key a)))).map
              Prod.fst = b.filter (Target.missPred t.cache) :=
          List.map_fst_zip _ _ (by rw [List.length_map])
        calc ((b.filter (Target.missPred t.cache)).zip
              ((b.filter (Target.missPred t.cache)).map (fun a => f (Target.key a)))).map
                (Prod.fst ∘ fun pr => (Target.key pr.1, pr.2))
            = (((b.filter (Target.missPred t.cache)).zip
                ((b.filter (Target.missPred t.cache)).map (fun a => f (Target.key a)))).map
                  Prod.fst).map Target.key := by rw [List.map_map]; rfl
          _ = (b.filter (Target.missPred t.cache)).map Target.key := by rw [this]
      rw [hfst]
      simp only [List.mem_reverse]
    · intro kv hkv
      rw [List.mem_reverse] at hkv
      obtain ⟨pr, hpr, hkv'⟩ := List.mem_map.mp hkv
      have := zip_map_self_mem (fun a => f (Target.key a)) _ pr hpr
      rw [← hkv']
      simpa using this
  next h =>
    rw [scanBatch_sb] at h
    have hempty : b.filter (Target.missPred t.cache) = [] :=
      List.eq_nil_of_length_eq_zero (by omega)
    rw [hempty]
    simp

/-! ### Claims -/

/-- C1: For every batch, `_submit_with_cache` returns an output list of the
same length and order as the input batch: each input whose fingerprint key is
in the cache contributes its stored output at its original position, the
remaining inputs form — in original order — one miss batch submitted to the
model in a single call, and each returned output is written back into the
cache and placed at that input's original position (assuming the model
returns one output per submitted input). -/
theorem C1_submit_with_cache_correct (model : Model) (t : Target)
    (batch : List Sample)
    (hlen : (model (batch.filter (Target.missPred t.cache))).length =
      (batch.filter (Target.missPred t.cache)).length) :
    (Target.submit_with_cache model t batch).1.length = batch.length
    ∧ (∀ j, j < batch.length → ∀ v,
        List.lookup (Target.key (batch.getD j default)) t.cache = some v →
        (Target.submit_with_cache model t batch).1[j]? = some (some v))
    ∧ (batch.filter (Target.missPred t.cache) ≠ [] →
        (Target.submit_with_cache model t batch).2.2 =
          [batch.filter (Target.missPred t.cache)])
    ∧ (Target.submit_with_cache model t batch).2.1.cache =
        (((batch.filter (Target.missPred t.cache)).zip
            (model (batch.filter (Target.missPred t.cache)))).map
          (fun pr => (Target.key pr.1, pr.2))).reverse ++ t.cache
    ∧ (∀ j, j < batch.length →
        Target.missPred t.cache (batch.getD j default) = true →
        (Target.submit_with_cache model t batch).1[j]? =
          some (some ((model (batch.filter (Target.missPred t.cache))).getD
            (Target.missRank t.cache batch j) default))) := by
  refine ⟨submit_with_cache_out_len model t batch,
    fun j hj v hv => submit_with_cache_out_hit model t batch j hj v hv,
    ?_, ?_,
    fun j hj hm => submit_with_cache_out_miss model t batch j hj hm hlen⟩
  · intro hne
    rw [submit_with_cache_calls]
    simp [hne]
  · rw [submit_with_cache_eq]
    split
    next h =>
      show (Target.mergeResults _ _ _ _ _).1 = _
      rw [mergeResults_cache _ _ _ _ _ (le_of_eq (scanBatch_idx_len t.cache batch 0).symm),
        scanBatch_sb]
    next h =>
      rw [scanBatch_sb] at h
      have hempty : batch.filter (Target.missPred t.cache) = [] :=
        List.eq_nil_of_length_eq_zero (by omega)
      rw [hempty]
      simp

/-- Witness for C1 at a concrete batch with one hit and two misses. -/
theorem C1_witness :
    ((fun b => b.map (fun a => [(a.bytes.headD 0 : Int)]) : Model)
        (([⟨0, [1]⟩, ⟨7, [2]⟩, ⟨1, [1]⟩] : List Sample).filter
          (Target.missPred ({ cache := [([2], [5])] } : Target).cache))).length =
      (([⟨0, [1]⟩, ⟨7, [2]⟩, ⟨1, [1]⟩] : List Sample).filter
        (Target.missPred ({ cache := [([2], [5])] } : Target).cache)).length
    ∧ (Target.submit_with_cache (fun b => b.map (fun a => [(a.bytes.headD 0 : Int)]))
        { cache := [([2], [5])] } [⟨0, [1]⟩, ⟨7, [2]⟩, ⟨1, [1]⟩]).1.length =
      ([⟨0, [1]⟩, ⟨7, [2]⟩, ⟨1, [1]⟩] : List Sample).length
    ∧ (Target.submit_with_cache (fun b => b.map (fun a => [(a.bytes.headD 0 : Int)]))
        { cache := [([2], [5])] } [⟨0, [1]⟩, ⟨7, [2]⟩, ⟨1, [1]⟩]).1[1]? =
      some (some [5]) := by
  have h := C1_submit_with_cache_correct
    (fun b => b.map (fun a => [(a.bytes.headD 0 : Int)]))
    { cache := [([2], [5])] } [⟨0, [1]⟩, ⟨7, [2]⟩, ⟨1, [1]⟩] (by decide)
  exact ⟨by decide, h.1, h.2.1 1 (by decide) [5] (by decide)⟩

/-- C3: a cached submission of N inputs with M cache hits issues exactly one
model call carrying exactly N−M inputs, and no call at all when M = N. -/
theorem C3_single_miss_batch_call (model : Model) (t : Target) (batch : List Sample) :
    (((batch.filter (fun a => (List.lookup (Target.key a) t.cache).isSome)).length =
        batch.length →
      (Target.submit_with_cache model t batch).2.2 = [])
    ∧ ((batch.filter (fun a => (List.lookup (Target.key a) t.cache).isSome)).length <
        batch.length →
      (Target.submit_with_cache model t batch).2.2.length = 1
      ∧ ((Target.submit_with_cache model t batch).2.2.headD []).length =
          batch.length -
            (batch.filter (fun a => (List.lookup (Target.key a) t.cache).isSome)).length)) := by
  have hsplit : (batch.filter (fun a => (List.lookup (Target.key a) t.cache).isSome)).length +
      (batch.filter (Target.missPred t.cache)).length = batch.length := by
    have h := @List.length_eq_length_filter_add _ batch
      (fun a => (List.lookup (Target.key a) t.cache).isSome)
    have hsame : batch.filter
        (fun a => !(List.lookup (Target.key a) t.cache).isSome) =
        batch.filter (Target.missPred t.cache) := by
      apply List.filter_congr
      intro a _
      simp only [Target.missPred]
      cases List.lookup (Target.key a) t.cache <;> simp
    rw [hsame] at h
    omega
  constructor
  · intro hM
    rw [submit_with_cache_calls]
    simp [show (batch.filter (Target.missPred t.cache)).length = 0 by omega]
  · intro hM
    rw [submit_with_cache_calls]
    have hpos : ¬(batch.filter (Target.missPred t.cache)).length = 0 := by omega
    simp only [hpos, if_false]
    refine ⟨rfl, ?_⟩
    simp only [List.headD_cons]
    omega

/-- Witness for C3 at a concrete batch with one hit and one miss. -/
theorem C3_witness :
    ((([⟨0, [1]⟩, ⟨7, [2]⟩] : List Sample).filter
        (fun a => (List.lookup (Target.key a)
          ({ cache := [([2], [5])] } : Target).cache).isSome)).length <
      ([⟨0, [1]⟩, ⟨7, [2]⟩] : List Sample).length)
    ∧ (Target.submit_with_cache (fun b => b.map (fun _ => ([] : List Int)))
        { cache := [([2], [5])] } [⟨0, [1]⟩, ⟨7, [2]⟩]).2.2.length = 1
    ∧ ((Target.submit_with_cache (fun b => b.map (fun _ => ([] : List Int)))
        { cache := [([2], [5])] } [⟨0, [1]⟩, ⟨7, [2]⟩]).2.2.headD []).length =
      ([⟨0, [1]⟩, ⟨7, [2]⟩] : List Sample).length -
        (([⟨0, [1]⟩, ⟨7, [2]⟩] : List Sample).filter
          (fun a => (List.lookup (Target.key a)
            ({ cache := [([2], [5])] } : Target).cache).isSome)).length := by
  have h := C3_single_miss_batch_call (fun b => b.map (fun _ => ([] : List Int)))
    { cache := [([2], [5])] } [⟨0, [1]⟩, ⟨7, [2]⟩]
  exact ⟨by decide, (h.2 (by decide)).1, (h.2 (by decide)).2⟩

/-- C2: submitting `[A]` and then `[B]` with identical byte content through
the cached path yields identical output for `B` without a second model call,
and `actual_evaluations` does not increase on the second submission. -/
theorem C2_cache_identical_content (model : Model) (t : Target) (A B : Sample)
    (hb : A.bytes = B.bytes) (hm : (model [A]).length = 1) :
    (Target.submit_with_cache model
        (Target.submit_with_cache model t [A]).2.1 [B]).1 =
      (Target.submit_with_cache model t [A]).1
    ∧ (Target.submit_with_cache model
        (Target.submit_with_cache model t [A]).2.1 [B]).2.1.actual_evaluations =
      (Target.submit_with_cache model t [A]).2.1.actual_evaluations
    ∧ (Target.submit_with_cache model
        (Target.submit_with_cache model t [A]).2.1 [B]).2.2 = [] := by
  have hk : Target.key B = Target.key A := by
    simp [Target.key, hb]
  cases hc : List.lookup (Target.key A) t.cache with
  | some v =>
    have h1 : Target.submit_with_cache model t [A] =
        ([some v], { t with num_evaluations := t.num_evaluations + 1 }, []) := by
      rw [submit_with_cache_eq]
      simp [Target.scanBatch, hc]
    have h2 : Target.submit_with_cache model
        { t with num_evaluations := t.num_evaluations + 1 } [B] =
        ([some v],
         { t with num_evaluations := t.num_evaluations + 1 + 1 }, []) := by
      rw [submit_with_cache_eq]
      simp [Target.scanBatch, hk, hc]
    rw [h1, h2]
    exact ⟨rfl, rfl, rfl⟩
  | none =>
    obtain ⟨r, hr⟩ := List.length_eq_one.mp hm
    have h1 : Target.submit_with_cache model t [A] =
        ([some r],
         { cache := (Target.key A, r) :: t.cache,
           num_evaluations := t.num_evaluations + 1,
           actual_evaluations := t.actual_evaluations + 1,
           model_output_classes := t.model_output_classes }, [[A]]) := by
      rw [submit_with_cache_eq]
      simp [Target.scanBatch, hc, Target.mergeResults, hr]
    have hlook : List.lookup (Target.key B) ((Target.key A, r) :: t.cache) = some r := by
      rw [hk]
      simp [List.lookup]
    have h2 : Target.submit_with_cache model
        { cache := (Target.key A, r) :: t.cache,
          num_evaluations := t.num_evaluations + 1,
          actual_evaluations := t.actual_evaluations + 1,
          model_output_classes := t.model_output_classes } [B] =
        ([some r],
         { cache := (Target.key A, r) :: t.cache,
           num_evaluations := t.num_evaluations + 1 + 1,
           actual_evaluations := t.actual_evaluations + 1,
           model_output_classes := t.model_output_classes }, []) := by
      rw [submit_with_cache_eq]
      simp [Target.scanBatch, hlook]
    rw [h1, h2]
    exact ⟨rfl, rfl, rfl⟩

/-- Witness for C2 at two samples with equal bytes but different in-memory
representation tags. -/
theorem C2_witness :
    (⟨0, [9]⟩ : Sample).bytes = (⟨5, [9]⟩ : Sample).bytes
    ∧ (((fun b => b.map (fun _ => [(3 : Int)])) : Model) [⟨0, [9]⟩]).length = 1
    ∧ (Target.submit_with_cache (fun b => b.map (fun _ => [(3 : Int)]))
        (Target.submit_with_cache (fun b => b.map (fun _ => [(3 : Int)]))
          ({} : Target) [⟨0, [9]⟩]).2.1 [⟨5, [9]⟩]).1 =
      (Target.submit_with_cache (fun b => b.map (fun _ => [(3 : Int)]))
        ({} : Target) [⟨0, [9]⟩]).1
    ∧ (Target.submit_with_cache (fun b => b.map (fun _ => [(3 : Int)]))
        (Target.submit_with_cache (fun b => b.map (fun _ => [(3 : Int)]))
          ({} : Target) [⟨0, [9]⟩]).2.1 [⟨5, [9]⟩]).2.1.actual_evaluations =
      (Target.submit_with_cache (fun b => b.map (fun _ => [(3 : Int)]))
        ({} : Target) [⟨0, [9]⟩]).2.1.actual_evaluations
    ∧ (Target.submit_with_cache (fun b => b.map (fun _ => [(3 : Int)]))
        (Target.submit_with_cache (fun b => b.map (fun _ => [(3 : Int)]))
          ({} : Target) [⟨0, [9]⟩]).2.1 [⟨5, [9]⟩]).2.2 = [] := by
  have h := C2_cache_identical_content (fun b => b.map (fun _ => [(3 : Int)]))
    ({} : Target) ⟨0, [9]⟩ ⟨5, [9]⟩ (by decide) (by decide)
  exact ⟨by decide, by decide, h.1, h.2.1, h.2.2⟩

/-! ### Counter bookkeeping across runner calls and the lifecycle -/

theorem submit_num (model : Model) (t : Target) (b : List Sample) :
    (Target.submit model t b).2.1.num_evaluations = t.num_evaluations + b.length :=
  rfl

theorem submit_actual (model : Model) (t : Target) (b : List Sample) :
    (Target.submit model t b).2.1.actual_evaluations = t.actual_evaluations + b.length :=
  rfl

theorem get_query_num (model : Model) (t : Target) (b : List Sample) :
    (Target.get_query model t b).2.num_evaluations = t.num_evaluations + b.length :=
  rfl

theorem get_query_actual (model : Model) (t : Target) (b : List Sample) :
    (Target.get_query model t b).2.actual_evaluations = t.actual_evaluations + b.length :=
  rfl

theorem applyCall_counters (model : Model) (t : Target) (c : RunnerCall) :
    ∃ dn da, da ≤ dn ∧
      (Target.applyCall model t c).num_evaluations = t.num_evaluations + dn ∧
      (Target.applyCall model t c).actual_evaluations = t.actual_evaluations + da := by
  cases c with
  | cached b =>
    exact ⟨b.length, (b.filter (Target.missPred t.cache)).length,
      List.length_filter_le _ _,
      submit_with_cache_num model t b, submit_with_cache_actual model t b⟩
  | uncached b =>
    exact ⟨b.length, b.length, le_refl _, rfl, rfl⟩

theorem runCalls_counters (model : Model) (calls : List RunnerCall) :
    ∀ t : Target, ∃ dn da, da ≤ dn ∧
      (Target.runCalls model t calls).num_evaluations = t.num_evaluations + dn ∧
      (Target.runCalls model t calls).actual_evaluations = t.actual_evaluations + da := by
  induction calls with
  | nil => exact fun t => ⟨0, 0, le_refl _, rfl, rfl⟩
  | cons c cs ih =>
    intro t
    obtain ⟨dn1, da1, h1, hn1, ha1⟩ := applyCall_counters model t c
    obtain ⟨dn2, da2, h2, hn2, ha2⟩ := ih (Target.applyCall model t c)
    refine ⟨dn1 + dn2, da1 + da2, by omega, ?_, ?_⟩
    · show (Target.runCalls model (Target.applyCall model t c) cs).num_evaluations = _
      omega
    · show (Target.runCalls model (Target.applyCall model t c) cs).actual_evaluations = _
      omega

theorem run_attack_error_eq (model : Model) (t : Target) (sess : Session)
    (r : RunnerScript) (e : String) (hr : r.outcome = .error e) :
    Target.run_attack model t sess r = .error (e, Target.runCalls model t r.calls, sess) := by
  simp only [Target.run_attack, Target.run_art_attack, hr]

theorem run_attack_ok_eq (model : Model) (t : Target) (sess : Session)
    (r : RunnerScript) (res : List Sample) (hr : r.outcome = .ok res) :
    Target.run_attack model t sess r = .ok
      ((Target.get_query model (Target.runCalls model t r.calls) res).2,
       { sess with
          status := "completed",
          results :=
            { sess.results with
                final := some (Target.get_query model (Target.runCalls model t r.calls) res).1,
                queries := some
                  (((Target.get_query model (Target.runCalls model t r.calls) res).2.num_evaluations : Int) -
                    (t.num_evaluations : Int)),
                cache_hits := some
                  ((((Target.get_query model (Target.runCalls model t r.calls) res).2.num_evaluations : Int) -
                      (t.num_evaluations : Int)) -
                    (((Target.get_query model (Target.runCalls model t r.calls) res).2.actual_evaluations : Int) -
                      (t.actual_evaluations : Int))) } }) := by
  simp only [Target.run_attack, Target.run_art_attack, hr]

/-- C4: every cached submission advances `num_evaluations` by the batch
length and `actual_evaluations` by the miss-batch size, every uncached
submission advances both by the batch length, and along any sequence of such
calls started from equal counters, `actual_evaluations ≤ num_evaluations`
holds after every call. -/
theorem C4_counter_increments (model : Model) :
    (∀ (t : Target) (b : List Sample),
      (Target.submit_with_cache model t b).2.1.num_evaluations =
        t.num_evaluations + b.length
      ∧ (Target.submit_with_cache model t b).2.1.actual_evaluations =
        t.actual_evaluations + (b.filter (Target.missPred t.cache)).length)
    ∧ (∀ (t : Target) (b : List Sample),
      (Target.submit model t b).2.1.num_evaluations = t.num_evaluations + b.length
      ∧ (Target.submit model t b).2.1.actual_evaluations =
        t.actual_evaluations + b.length)
    ∧ (∀ (t : Target) (calls : List RunnerCall) (n : Nat),
      t.actual_evaluations = t.num_evaluations →
      (Target.runCalls model t (calls.take n)).actual_evaluations ≤
        (Target.runCalls model t (calls.take n)).num_evaluations) := by
  refine ⟨fun t b => ⟨submit_with_cache_num model t b, submit_with_cache_actual model t b⟩,
    fun t b => ⟨rfl, rfl⟩, fun t calls n h => ?_⟩
  obtain ⟨dn, da, hd, hn, ha⟩ := runCalls_counters model (calls.take n) t
  omega

/-- Witness for C4: a two-call sequence starting from zeroed counters. -/
theorem C4_witness :
    ({} : Target).actual_evaluations = ({} : Target).num_evaluations
    ∧ (Target.runCalls (fun b => b.map (fun _ => ([] : List Int))) ({} : Target)
        (([RunnerCall.cached [⟨0, [1]⟩], RunnerCall.uncached [⟨0, [1]⟩]]).take 2)).actual_evaluations ≤
      (Target.runCalls (fun b => b.map (fun _ => ([] : List Int))) ({} : Target)
        (([RunnerCall.cached [⟨0, [1]⟩], RunnerCall.uncached [⟨0, [1]⟩]]).take 2)).num_evaluations :=
  ⟨rfl, (C4_counter_increments (fun b => b.map (fun _ => ([] : List Int)))).2.2
    ({} : Target) [RunnerCall.cached [⟨0, [1]⟩], RunnerCall.uncached [⟨0, [1]⟩]] 2 rfl⟩

/-- C5: every completed `run_attack` records `queries` and `cache_hits` with
`cache_hits = queries − (actual_evaluations_after − actual_evaluations_before)`,
and the recorded `cache_hits` is never negative. -/
theorem C5_cache_hits_recorded (model : Model) (t : Target) (sess : Session)
    (r : RunnerScript) (t' : Target) (sess' : Session)
    (h : Target.run_attack model t sess r = .ok (t', sess')) :
    ∃ q ch : Int,
      sess'.results.queries = some q
      ∧ sess'.results.cache_hits = some ch
      ∧ ch = q - ((t'.actual_evaluations : Int) - (t.actual_evaluations : Int))
      ∧ 0 ≤ ch := by
  cases hr : r.outcome with
  | error e =>
    rw [run_attack_error_eq model t sess r e hr] at h
    simp at h
  | ok res =>
    rw [run_attack_ok_eq model t sess r res hr] at h
    simp only [Except.ok.injEq, Prod.mk.injEq] at h
    obtain ⟨ht, hs⟩ := h
    subst ht
    subst hs
    refine ⟨_, _, rfl, rfl, rfl, ?_⟩
    obtain ⟨dn, da, hd, hn, ha⟩ := runCalls_counters model r.calls t
    have hgn := get_query_num model (Target.runCalls model t r.calls) res
    have hga := get_query_actual model (Target.runCalls model t r.calls) res
    omega

/-- Witness for C5: a completed run with an empty runner script and a
one-sample final probe. -/
theorem C5_witness :
    Target.run_attack (fun b => b.map (fun _ => ([] : List Int))) ({} : Target)
        ({} : Session) { calls := [], outcome := .ok [⟨0, [1]⟩] } =
      .ok ({ num_evaluations := 1, actual_evaluations := 1 },
        { status := "completed",
          results := { final := some { input := [⟨0, [1]⟩], output := [[]], label := [0] },
                       queries := some 1, cache_hits := some 0 } })
    ∧ ∃ q ch : Int,
      ({ status := "completed",
         results := { final := some { input := [⟨0, [1]⟩], output := [[]], label := [0] },
                      queries := some 1, cache_hits := some 0 } } : Session).results.queries = some q
      ∧ ({ status := "completed",
           results := { final := some { input := [⟨0, [1]⟩], output := [[]], label := [0] },
                        queries := some 1, cache_hits := some 0 } } : Session).results.cache_hits = some ch
      ∧ ch = q - ((({ num_evaluations := 1, actual_evaluations := 1 } : Target).actual_evaluations : Int) -
          ((({} : Target)).actual_evaluations : Int))
      ∧ 0 ≤ ch := by
  have hrun : Target.run_attack (fun b => b.map (fun _ => ([] : List Int))) ({} : Target)
      ({} : Session) { calls := [], outcome := .ok [⟨0, [1]⟩] } =
      .ok ({ num_evaluations := 1, actual_evaluations := 1 },
        { status := "completed",
          results := { final := some { input := [⟨0, [1]⟩], output := [[]], label := [0] },
                       queries := some 1, cache_hits := some 0 } }) := rfl
  exact ⟨hrun, C5_cache_hits_recorded (fun b => b.map (fun _ => ([] : List Int)))
    ({} : Target) ({} : Session) { calls := [], outcome := .ok [⟨0, [1]⟩] } _ _ hrun⟩

/-- C6 (amended): the counter deltas recorded by `run_attack` span only the
runner execution and the final probe (lifecycle steps 3–4); `run_attack`
snapshots the counters at its own entry, i.e. after `init_run_attack` (the
initial probe, step 2) has already advanced them, so the initial probe is
excluded from the recorded `queries`/`cache_hits`. -/
theorem C6_deltas_span_runner_and_final_probe (model : Model) (t0 : Target)
    (sess0 : Session) (r : RunnerScript) (res : List Sample)
    (hr : r.outcome = .ok res) :
    ∃ t2 sess2,
      Target.run_attack model (Target.init_run_attack model t0 sess0).1
          (Target.init_run_attack model t0 sess0).2 r = .ok (t2, sess2)
      ∧ sess2.results.queries =
          some ((t2.num_evaluations : Int) -
            ((Target.init_run_attack model t0 sess0).1.num_evaluations : Int))
      ∧ sess2.results.cache_hits =
          some (((t2.num_evaluations : Int) -
              ((Target.init_run_attack model t0 sess0).1.num_evaluations : Int)) -
            ((t2.actual_evaluations : Int) -
              ((Target.init_run_attack model t0 sess0).1.actual_evaluations : Int)))
      ∧ (Target.init_run_attack model t0 sess0).1.num_evaluations =
          t0.num_evaluations + sess0.samples.length := by
  refine ⟨_, _, run_attack_ok_eq model (Target.init_run_attack model t0 sess0).1
    (Target.init_run_attack model t0 sess0).2 r res hr, rfl, rfl, rfl⟩

/-- Counterexample to C6 as stated: with an empty pre-lifecycle state, a
one-sample initial probe, an empty runner script and a one-sample final
probe, the evaluations spanning steps 2–4 number 2, yet the recorded
`queries` is 1 — the recorded deltas do not include the initial probe. -/
theorem C6_counterexample :
    (Target.run_attack (fun b => b.map (fun _ => ([] : List Int)))
        (Target.init_run_attack (fun b => b.map (fun _ => ([] : List Int)))
          ({} : Target) { samples := [⟨0, [0]⟩] }).1
        (Target.init_run_attack (fun b => b.map (fun _ => ([] : List Int)))
          ({} : Target) { samples := [⟨0, [0]⟩] }).2
        { calls := [], outcome := .ok [⟨0, [1]⟩] }).map
      (fun ts => (ts.2.results.queries, ts.1.num_evaluations)) = .ok (some 1, 2)
    ∧ ({} : Target).num_evaluations = 0
    ∧ some (1 : Int) ≠ some ((2 : Int) - (0 : Int)) :=
  ⟨rfl, rfl, by decide⟩

/-- Witness for the amended C6 at a concrete lifecycle. -/
theorem C6_witness :
    ({ calls := [], outcome := .ok [⟨0, [1]⟩] } : RunnerScript).outcome =
      .ok [⟨0, [1]⟩]
    ∧ ∃ t2 sess2,
      Target.run_attack (fun b => b.map (fun _ => ([] : List Int)))
          (Target.init_run_attack (fun b => b.map (fun _ => ([] : List Int)))
            ({} : Target) { samples := [⟨0, [0]⟩] }).1
          (Target.init_run_attack (fun b => b.map (fun _ => ([] : List Int)))
            ({} : Target) { samples := [⟨0, [0]⟩] }).2
          { calls := [], outcome := .ok [⟨0, [1]⟩] } = .ok (t2, sess2)
      ∧ sess2.results.queries =
          some ((t2.num_evaluations : Int) -
            (((Target.init_run_attack (fun b => b.map (fun _ => ([] : List Int)))
              ({} : Target) { samples := [⟨0, [0]⟩] }).1.num_evaluations : Int)))
      ∧ sess2.results.cache_hits =
          some (((t2.num_evaluations : Int) -
              (((Target.init_run_attack (fun b => b.map (fun _ => ([] : List Int)))
                ({} : Target) { samples := [⟨0, [0]⟩] }).1.num_evaluations : Int))) -
            ((t2.actual_evaluations : Int) -
              (((Target.init_run_attack (fun b => b.map (fun _ => ([] : List Int)))
                ({} : Target) { samples := [⟨0, [0]⟩] }).1.actual_evaluations : Int))))
      ∧ (Target.init_run_attack (fun b => b.map (fun _ => ([] : List Int)))
          ({} : Target) { samples := [⟨0, [0]⟩] }).1.num_evaluations =
          ({} : Target).num_evaluations +
            ({ samples := [⟨0, [0]⟩] } : Session).samples.length :=
  ⟨rfl, C6_deltas_span_runner_and_final_probe
    (fun b => b.map (fun _ => ([] : List Int))) ({} : Target)
    { samples := [⟨0, [0]⟩] } { calls := [], outcome := .ok [⟨0, [1]⟩] }
    [⟨0, [1]⟩] rfl⟩

/-- C7: `check_attack_success` operates only on the recorded labels — in
targeted mode (`targeted = true` in the parameters) it succeeds elementwise
iff the final label equals the vocabulary entry selected by the session's
target class; in untargeted mode it succeeds elementwise iff the final label
differs from the initial label. -/
theorem C7_check_attack_success (t : Target) (sess : Session) (qf qi : Query)
    (hf : sess.results.final = some qf) (hi : sess.results.initial = some qi)
    (hlen : qf.label.length = qi.label.length) :
    (sess.parameters.targeted = some true →
      (Target.check_attack_success t sess).length = qf.label.length
      ∧ ∀ j, j < qf.label.length →
        ((Target.check_attack_success t sess).getD j false = true ↔
          qf.label.getD j 0 = t.model_output_classes.getD sess.target_class 0))
    ∧ (sess.parameters.targeted.getD false = false →
      (Target.check_attack_success t sess).length = qf.label.length
      ∧ ∀ j, j < qf.label.length →
        ((Target.check_attack_success t sess).getD j false = true ↔
          qf.label.getD j 0 ≠ qi.label.getD j 0)) := by
  constructor
  · intro htg
    have hcheck : Target.check_attack_success t sess =
        qf.label.map (fun l => l == t.model_output_classes.getD sess.target_class 0) := by
      simp [Target.check_attack_success, hf, htg]
    rw [hcheck]
    refine ⟨List.length_map _ _, fun j hj => ?_⟩
    rw [List.getD_eq_getElem _ false (by simpa using hj), List.getElem_map,
      List.getD_eq_getElem _ 0 hj]
    exact beq_iff_eq
  · intro htg
    have hcheck : Target.check_attack_success t sess =
        List.zipWith (fun n o => n != o) qf.label qi.label := by
      simp [Target.check_attack_success, hf, hi, htg]
    rw [hcheck]
    have hzlen : (List.zipWith (fun n o : Label => n != o) qf.label qi.label).length =
        qf.label.length := by
      rw [List.length_zipWith, hlen, Nat.min_self]
    refine ⟨hzlen, fun j hj => ?_⟩
    rw [List.getD_eq_getElem _ false (by omega), List.getElem_zipWith,
      List.getD_eq_getElem _ 0 hj, List.getD_eq_getElem _ 0 (by omega)]
    exact bne_iff_ne

/-- Concrete target for the C7 witness. -/
def c7_target : Target := { model_output_classes := [0, 1, 2] }

/-- Concrete final query for the C7 witness. -/
def c7_final : Query := { input := [], output := [], label := [2] }

/-- Concrete initial query for the C7 witness. -/
def c7_initial : Query := { input := [], output := [], label := [0] }

/-- Concrete session for the C7 witness: targeted, target class 2. -/
def c7_session : Session :=
  { parameters := { targeted := some true }, target_class := 2,
    results := { initial := some c7_initial, final := some c7_final } }

/-- Witness for C7: targeted session with target class 2 over vocabulary
`[0, 1, 2]`, initial label 0, final label 2. -/
theorem C7_witness :
    c7_session.results.final = some c7_final
    ∧ c7_session.results.initial = some c7_initial
    ∧ c7_final.label.length = c7_initial.label.length
    ∧ ((c7_session.parameters.targeted = some true →
        (Target.check_attack_success c7_target c7_session).length = c7_final.label.length
        ∧ ∀ j, j < c7_final.label.length →
          ((Target.check_attack_success c7_target c7_session).getD j false = true ↔
            c7_final.label.getD j 0 =
              c7_target.model_output_classes.getD c7_session.target_class 0))
      ∧ (c7_session.parameters.targeted.getD false = false →
        (Target.check_attack_success c7_target c7_session).length = c7_final.label.length
        ∧ ∀ j, j < c7_final.label.length →
          ((Target.check_attack_success c7_target c7_session).getD j false = true ↔
            c7_final.label.getD j 0 ≠ c7_initial.label.getD j 0))) :=
  ⟨rfl, rfl, rfl,
    C7_check_attack_success c7_target c7_session c7_final c7_initial rfl rfl rfl⟩

/-- C8: if the runner raises during the running phase, `run_attack`
propagates the exception uncaught together with the mutated target state and
the untouched session — the status stays non-terminal and no final
results or statistics are committed. -/
theorem C8_runner_exception_propagates (model : Model) (t : Target)
    (sess : Session) (r : RunnerScript) (e : String)
    (hr : r.outcome = .error e) (hs : sess.status ≠ "completed") :
    Target.run_attack model t sess r =
      .error (e, Target.runCalls model t r.calls, sess)
    ∧ sess.status ≠ "completed"
    ∧ sess.results.final = sess.results.final :=
  ⟨run_attack_error_eq model t sess r e hr, hs, rfl⟩

/-- Witness for C8: a runner that raises after one uncached call. -/
theorem C8_witness :
    ({ calls := [RunnerCall.uncached [⟨0, [1]⟩]],
       outcome := .error "boom" } : RunnerScript).outcome = .error "boom"
    ∧ ({} : Session).status ≠ "completed"
    ∧ Target.run_attack (fun b => b.map (fun _ => ([] : List Int))) ({} : Target)
        ({} : Session)
        { calls := [RunnerCall.uncached [⟨0, [1]⟩]], outcome := .error "boom" } =
      .error ("boom",
        Target.runCalls (fun b => b.map (fun _ => ([] : List Int))) ({} : Target)
          ({ calls := [RunnerCall.uncached [⟨0, [1]⟩]],
             outcome := .error "boom" } : RunnerScript).calls,
        ({} : Session)) := by
  have h := C8_runner_exception_propagates (fun b => b.map (fun _ => ([] : List Int)))
    ({} : Target) ({} : Session)
    { calls := [RunnerCall.uncached [⟨0, [1]⟩]], outcome := .error "boom" }
    "boom" rfl (by decide)
  exact ⟨rfl, h.2.1, h.1⟩

/-- C9 (amended): with no status given, `get_attacks` returns all attacks;
with a recognized status it returns exactly the attacks whose status equals
it; with a non-empty unrecognized status it returns the benign
`notUnderstood` (`False`) indicator rather than raising. (An empty status
string is falsy in Python, so `get_attacks` returns all attacks for it.) -/
theorem C9_get_attacks_filter (atks : List (String × Session)) (s : String)
    (hs : recognizedStatus s = false) (hne : s ≠ "") :
    Target.get_attacks atks (some s) = .notUnderstood
    ∧ Target.get_attacks atks none = .attacks atks
    ∧ (∀ s', recognizedStatus s' = true →
        Target.get_attacks atks (some s') =
          .attacks (atks.filter (fun kv => kv.2.status == s'))
        ∧ ∀ kv, kv ∈ atks.filter (fun kv => kv.2.status == s') ↔
            kv ∈ atks ∧ kv.2.status = s') := by
  refine ⟨?_, rfl, fun s' hs' => ⟨?_, fun kv => ?_⟩⟩
  · simp [Target.get_attacks, hne, hs]
  · have hne' : ¬s' = "" := by
      intro h
      subst h
      simp [recognizedStatus] at hs'
    simp [Target.get_attacks, hne', hs']
  · rw [List.mem_filter]
    constructor
    · exact fun ⟨h1, h2⟩ => ⟨h1, beq_iff_eq.mp h2⟩
    · exact fun ⟨h1, h2⟩ => ⟨h1, beq_iff_eq.mpr h2⟩

/-- Counterexample to C9 as stated: the empty string is not a recognized
attack status, yet `get_attacks` returns the full (non-empty) attack dict for
it instead of a false/empty indicator, because `if not status` treats the
empty string as "no status given". -/
theorem C9_counterexample :
    recognizedStatus "" = false
    ∧ Target.get_attacks [("a", { status := "pending" })] (some "") =
        .attacks [("a", { status := "pending" })]
    ∧ Target.get_attacks [("a", { status := "pending" })] (some "") ≠
        .notUnderstood :=
  ⟨rfl, rfl, by decide⟩

/-- Witness for the amended C9 at a concrete attack dict and status values. -/
theorem C9_witness :
    recognizedStatus "weird" = false
    ∧ "weird" ≠ ""
    ∧ Target.get_attacks [("a", { status := "pending" }),
        ("b", { status := "completed" })] (some "weird") = .notUnderstood
    ∧ Target.get_attacks [("a", { status := "pending" }),
        ("b", { status := "completed" })] none =
      .attacks [("a", { status := "pending" }), ("b", { status := "completed" })]
    ∧ Target.get_attacks [("a", { status := "pending" }),
        ("b", { status := "completed" })] (some "completed") =
      .attacks ([("a", { status := "pending" }),
        ("b", { status := "completed" })].filter (fun kv => kv.2.status == "completed")) := by
  have h := C9_get_attacks_filter
    [("a", { status := "pending" }), ("b", { status := "completed" })] "weird"
    (by decide) (by decide)
  exact ⟨by decide, by decide, h.1, h.2.1, (h.2.2 "completed" (by decide)).1⟩

/-- C10 (amended): assuming the model returns, for the miss batch, exactly
one output per input in order AND assigns equal outputs to inputs with equal
fingerprint keys (i.e. its outputs are pointwise a function of the input's
serialized bytes, as the deterministic model contract guarantees), then after
`_submit_with_cache` returns, the fingerprint key of every input of the batch
is present in the cache and the cached value equals the output returned at
that input's position. -/
theorem C10_cache_consistency (model : Model) (t : Target) (batch : List Sample)
    (f : Bytes → RawOutput)
    (hmodel : model (batch.filter (Target.missPred t.cache)) =
      (batch.filter (Target.missPred t.cache)).map (fun a => f (Target.key a))) :
    ∀ j, j < batch.length →
      ∃ v, (Target.submit_with_cache model t batch).1[j]? = some (some v)
      ∧ List.lookup (Target.key (batch.getD j default))
          (Target.submit_with_cache model t batch).2.1.cache = some v := by
  intro j hj
  cases hc : List.lookup (Target.key (batch.getD j default)) t.cache with
  | some v =>
    exact ⟨v, submit_with_cache_out_hit model t batch j hj v hc,
      submit_with_cache_cache_of_hit model t batch _ v hc⟩
  | none =>
    have hm : Target.missPred t.cache (batch.getD j default) = true := by
      unfold Target.missPred
      rw [hc]
      rfl
    have hlen : (model (batch.filter (Target.missPred t.cache))).length =
        (batch.filter (Target.missPred t.cache)).length := by
      rw [hmodel, List.length_map]
    have hout := submit_with_cache_out_miss model t batch j hj hm hlen
    have hrank := scanBatch_rank t.cache batch 0 j hj hm
    have hranklt : Target.missRank t.cache batch j <
        (batch.filter (Target.missPred t.cache)).length := by
      have := hrank.1
      rwa [scanBatch_sb] at this
    have hsb : (batch.filter (Target.missPred t.cache)).getD
        (Target.missRank t.cache batch j) default = batch.getD j default := by
      have := hrank.2.2
      rwa [scanBatch_sb] at this
    have hval : (model (batch.filter (Target.missPred t.cache))).getD
        (Target.missRank t.cache batch j) default =
        f (Target.key (batch.getD j default)) := by
      rw [hmodel, List.getD_eq_getElem _ default (by rwa [List.length_map]),
        List.getElem_map, ← List.getD_eq_getElem _ default hranklt, hsb]
    refine ⟨f (Target.key (batch.getD j default)), ?_, ?_⟩
    · rw [hout, hval]
    · rw [submit_with_cache_cache_ptwise model t batch f hmodel]
      have hmem : Target.key (batch.getD j default) ∈
          (batch.filter (Target.missPred t.cache)).map Target.key := by
        apply List.mem_map_of_mem
        apply List.mem_filter.mpr
        exact ⟨by rw [List.getD_eq_getElem batch default hj]; exact List.getElem_mem hj, hm⟩
      rw [if_pos hmem]

/-- Counterexample to C10 as stated: a model that returns one output per
input in order but different outputs for byte-identical inputs at different
positions. On the batch `[A, A]` the cache ends holding the second output
while position 0 of the returned output list holds the first. -/
theorem C10_counterexample :
    ((fun b => (List.range b.length).map (fun i => [(i : Int)]) : Model)
        [(⟨0, [7]⟩ : Sample), ⟨0, [7]⟩]).length =
      ([(⟨0, [7]⟩ : Sample), ⟨0, [7]⟩] : List Sample).length
    ∧ (Target.submit_with_cache
        (fun b => (List.range b.length).map (fun i => [(i : Int)]))
        ({} : Target) [⟨0, [7]⟩, ⟨0, [7]⟩]).1[0]? = some (some [0])
    ∧ List.lookup (Target.key (⟨0, [7]⟩ : Sample))
        (Target.submit_with_cache
          (fun b => (List.range b.length).map (fun i => [(i : Int)]))
          ({} : Target) [⟨0, [7]⟩, ⟨0, [7]⟩]).2.1.cache = some [1]
    ∧ some (some ([0] : RawOutput)) ≠ some (some ([1] : RawOutput)) :=
  ⟨rfl, rfl, rfl, by decide⟩

/-- Witness for the amended C10 at a concrete batch with a duplicate miss and
a cache hit, under a bytes-determined model. -/
theorem C10_witness :
    ((fun b => b.map (fun a => [(a.bytes.headD 0 : Int)]) : Model)
        (([⟨0, [1]⟩, ⟨7, [2]⟩, ⟨1, [1]⟩] : List Sample).filter
          (Target.missPred ({ cache := [([2], [5])] } : Target).cache))) =
      (([⟨0, [1]⟩, ⟨7, [2]⟩, ⟨1, [1]⟩] : List Sample).filter
        (Target.missPred ({ cache := [([2], [5])] } : Target).cache)).map
        (fun a => (fun k => [(k.headD 0 : Int)]) (Target.key a))
    ∧ ∃ v, (Target.submit_with_cache
          (fun b => b.map (fun a => [(a.bytes.headD 0 : Int)]))
          { cache := [([2], [5])] } [⟨0, [1]⟩, ⟨7, [2]⟩, ⟨1, [1]⟩]).1[2]? =
        some (some v)
      ∧ List.lookup (Target.key (([⟨0, [1]⟩, ⟨7, [2]⟩, ⟨1, [1]⟩] : List Sample).getD 2 default))
          (Target.submit_with_cache
            (fun b => b.map (fun a => [(a.bytes.headD 0 : Int)]))
            { cache := [([2], [5])] } [⟨0, [1]⟩, ⟨7, [2]⟩, ⟨1, [1]⟩]).2.1.cache =
        some v :=
  ⟨by decide,
    C10_cache_consistency (fun b => b.map (fun a => [(a.bytes.headD 0 : Int)]))
      { cache := [([2], [5])] } [⟨0, [1]⟩, ⟨7, [2]⟩, ⟨1, [1]⟩]
      (fun k => [(k.headD 0 : Int)]) (by decide) 2 (by decide)⟩
